import Mathlib

/-!
Verification of the Habitify habit tracker (storage layer `sdk/habit_tracker.py`
and the analytics fragments of `cli/cli_tool.py`) against its specification.

The entry log is a CSV file: a sequence of rows, each row a list of string
fields.  The file may be absent (`none`).  Fallible Python operations
(`IndexError` on short rows, `FileNotFoundError` on a missing file,
`KeyError` on a missing dict key) are modelled with `Option` / `Except`.
-/

namespace Habitify

/-- One CSV row of the entry log: a list of string fields. -/
abbrev Row := List String

/-- The on-disk log file: `none` when the file does not exist. -/
abbrev LogFile := Option (List Row)

/-- The dict `{"date": row[0], "habit": row[1], "status": row[2]}` built by
`view_habits` for each row. -/
structure StoreEntry where
  date : String
  habit : String
  status : String
deriving DecidableEq, Repr

/-- Errors surfaced by the store: a missing log file (`FileNotFoundError`)
or a row with too few fields (`IndexError`). -/
inductive StoreError where
  | fileNotFound
  | malformedRow
deriving DecidableEq, Repr

/-- `row[0]`, `row[1]`, `row[2]` of `view_habits`: succeeds exactly when the
row has at least three fields (extra fields are ignored, as in Python). -/
def rowToEntry : Row → Option StoreEntry
  | d :: h :: s :: _ => some ⟨d, h, s⟩
  | _ => none

/-- `HabitTracker.log_habit`: opens the log in append mode (creating the file
when absent, as Python `open(..., "a")` does) and appends one row
`[date, habit_name, status]`; `date` is the stamp `str(datetime.now().date())`
taken at call time. -/
def log_habit (file : LogFile) (date habit_name status : String) : LogFile :=
  some (file.getD [] ++ [[date, habit_name, status]])

/-- `HabitTracker.view_habits`: reads every row of the log in on-disk order,
converting each to a `StoreEntry`.  A missing file raises `FileNotFoundError`;
a row with fewer than three fields raises `IndexError`. -/
def view_habits (file : LogFile) : Except StoreError (List StoreEntry) :=
  match file with
  | none => .error .fileNotFound
  | some rows =>
    match rows.mapM rowToEntry with
    | some es => .ok es
    | none => .error .malformedRow

/-- The row filter of `HabitTracker.delete_habit`:
`[row for row in rows if row[1] != habit_name]`.  Each row's second field is
examined; a row with fewer than two fields raises `IndexError` (`none`). -/
def deleteRows : List Row → String → Option (List Row)
  | [], _ => some []
  | row :: rest, habit_name =>
    match row with
    | _ :: h :: _ =>
      (deleteRows rest habit_name).map
        (fun r => if h = habit_name then r else row :: r)
    | _ => none

/-- `HabitTracker.delete_habit`: reads the whole log and rewrites it with only
the rows whose second field is not exactly `habit_name`. -/
def delete_habit (file : LogFile) (habit_name : String) :
    Except StoreError (List Row) :=
  match file with
  | none => .error .fileNotFound
  | some rows =>
    match deleteRows rows habit_name with
    | some kept => .ok kept
    | none => .error .malformedRow

/-- Appending a batch of entries in order; each triple carries the date stamp
the clock produced for that append. -/
def logAll (file : LogFile) (ts : List (String × String × String)) : LogFile :=
  ts.foldl (fun f t => log_habit f t.1 t.2.1 t.2.2) file

end Habitify

namespace Habitify

theorem logAll_some (rows : List Row) (ts : List (String × String × String)) :
    logAll (some rows) ts =
      some (rows ++ ts.map (fun t => [t.1, t.2.1, t.2.2])) := by
  induction ts generalizing rows with
  | nil => simp [logAll]
  | cons t ts ih =>
    simp only [logAll, List.foldl_cons] at *
    rw [show log_habit (some rows) t.1 t.2.1 t.2.2
          = some (rows ++ [[t.1, t.2.1, t.2.2]]) from rfl]
    rw [ih]
    simp

end Habitify

/-- C3: appending N (date, habit, status)-stamped entries to an empty store and
then reading all entries yields exactly those N entries, in append order, with
the date, habit and status fields preserved verbatim. -/
theorem C3_round_trip (ts : List (String × String × String)) :
    Habitify.view_habits (Habitify.logAll (some []) ts) =
      Except.ok (ts.map (fun t => ⟨t.1, t.2.1, t.2.2⟩)) ∧
    (ts.map (fun t : String × String × String =>
      (⟨t.1, t.2.1, t.2.2⟩ : Habitify.StoreEntry))).length = ts.length := by
  refine ⟨?_, by simp⟩
  rw [Habitify.logAll_some]
  simp only [List.nil_append, Habitify.view_habits]
  have h : (ts.map (fun t => [t.1, t.2.1, t.2.2])).mapM Habitify.rowToEntry
      = some (ts.map (fun t => ⟨t.1, t.2.1, t.2.2⟩)) := by
    induction ts with
    | nil => rfl
    | cons t ts ih =>
      simp only [List.map_cons, List.mapM_cons, ih, Habitify.rowToEntry,
        Option.bind_eq_bind, Option.some_bind]
      rfl
  rw [h]

/-- C8: reading the store when the log file does not exist fails with the
not-found condition; it does not return an empty (or any) sequence. -/
theorem C8_missing_file :
    Habitify.view_habits none = Except.error Habitify.StoreError.fileNotFound ∧
    ∀ es, Habitify.view_habits none ≠ Except.ok es := by
  exact ⟨rfl, fun es h => by cases h⟩

/-- C4: when `delete_habit` succeeds, no remaining row has its habit field
(second field) exactly equal to the given name, and the remaining rows are
precisely the non-matching rows of the original log in their original
relative order.  The match is case-sensitive: a row differing from the name
only in letter case is kept (it satisfies `row.get? 1 ≠ some name`). -/
theorem C4_delete_complete (rows : List Habitify.Row) (habit_name : String)
    (out : List Habitify.Row)
    (h : Habitify.deleteRows rows habit_name = some out) :
    (∀ row ∈ out, row.get? 1 ≠ some habit_name) ∧
    out = rows.filter (fun row => row.get? 1 != some habit_name) := by
  induction rows generalizing out with
  | nil =>
    simp only [Habitify.deleteRows, Option.some.injEq] at h
    subst h
    simp
  | cons row rest ih =>
    match row with
    | [] => simp [Habitify.deleteRows] at h
    | [d] => simp [Habitify.deleteRows] at h
    | d :: hb :: tl =>
      simp only [Habitify.deleteRows, Option.map_eq_some'] at h
      obtain ⟨r, hr, hout⟩ := h
      obtain ⟨ih1, ih2⟩ := ih r hr
      by_cases he : hb = habit_name
      · subst he
        simp only [if_pos rfl] at hout
        subst hout
        exact ⟨ih1, by simp [List.filter_cons, List.get?, ih2]⟩
      · rw [if_neg he] at hout
        subst hout
        constructor
        · intro x hx
          rcases List.mem_cons.mp hx with hx1 | hx2
          · subst hx1
            simp [List.get?, he]
          · exact ih1 x hx2
        · simp [List.filter_cons, List.get?, he, ih2]

/-- Witness for C4 at a concrete log: deleting "Run" removes exactly the two
rows whose habit field is "Run" and keeps the row whose habit field is "run"
(different case). -/
theorem C4_delete_complete_witness :
    (∀ row ∈ ([["2024-01-02", "run", "Skipped"]] : List Habitify.Row),
      row.get? 1 ≠ some "Run") ∧
    ([["2024-01-02", "run", "Skipped"]] : List Habitify.Row) =
      ([["2024-01-01", "Run", "Completed"], ["2024-01-02", "run", "Skipped"],
        ["2024-01-03", "Run", "Partial"]] : List Habitify.Row).filter
        (fun row => row.get? 1 != some "Run") :=
  C4_delete_complete
    [["2024-01-01", "Run", "Completed"], ["2024-01-02", "run", "Skipped"],
     ["2024-01-03", "Run", "Partial"]] "Run"
    [["2024-01-02", "run", "Skipped"]] (by decide)

/-- C9: deleting a habit name that matches no row's habit field exactly leaves
the log unchanged: the rewrite produces the same rows in the same order. -/
theorem C9_delete_noop (rows : List Habitify.Row) (habit_name : String)
    (hwf : ∀ row ∈ rows, 2 ≤ row.length)
    (hnm : ∀ row ∈ rows, row.get? 1 ≠ some habit_name) :
    Habitify.deleteRows rows habit_name = some rows := by
  induction rows with
  | nil => rfl
  | cons row rest ih =>
    have hrest : Habitify.deleteRows rest habit_name = some rest :=
      ih (fun r hr => hwf r (List.mem_cons_of_mem row hr))
        (fun r hr => hnm r (List.mem_cons_of_mem row hr))
    match row with
    | [] => exact absurd (hwf [] (List.mem_cons_self _ _)) (by simp)
    | [d] => exact absurd (hwf [d] (List.mem_cons_self _ _)) (by simp)
    | d :: hb :: tl =>
      have hne : hb ≠ habit_name := by
        have := hnm (d :: hb :: tl) (List.mem_cons_self _ _)
        simpa [List.get?] using this
      show (Habitify.deleteRows rest habit_name).map
        (fun r => if hb = habit_name then r else (d :: hb :: tl) :: r) =
          some ((d :: hb :: tl) :: rest)
      rw [hrest]
      simp [hne]

/-- Witness for C9 at a concrete log with no matching rows. -/
theorem C9_delete_noop_witness :
    Habitify.deleteRows
      ([["2024-01-01", "Run", "Completed"], ["2024-01-02", "Read", "Skipped"]] :
        List Habitify.Row) "Walk" =
      some [["2024-01-01", "Run", "Completed"], ["2024-01-02", "Read", "Skipped"]] :=
  C9_delete_noop
    [["2024-01-01", "Run", "Completed"], ["2024-01-02", "Read", "Skipped"]]
    "Walk" (by decide) (by decide)

/-- C10: on a log containing a row with fewer than 2 fields, `delete_habit`
fails with the index error raised while traversing the rows, instead of
producing a rewritten log. -/
theorem C10_short_row_delete :
    Habitify.delete_habit (some [["2024-01-01"]]) "Exercise" =
      Except.error Habitify.StoreError.malformedRow ∧
    ∀ kept, Habitify.delete_habit (some [["2024-01-01"]]) "Exercise" ≠
      Except.ok kept := by
  exact ⟨rfl, fun kept h => by cases h⟩

namespace Habitify

/-- One in-memory habit entry as the analytics code sees it after parsing:
the date is a calendar day number (dates compare and subtract as days),
habit and status are the stored strings. -/
structure HabitEntry where
  date : Int
  habit : String
  status : String
deriving DecidableEq, Repr

/-- Python `str.lower()` as applied to statuses and habit names (ASCII
lowering, character by character). -/
def pyLower (s : String) : String := ⟨s.data.map Char.toLower⟩

/-- The per-habit record created by the `stats` defaultdict:
`{'total': 0, 'completed': 0, 'skipped': 0, 'partial': 0, 'exceeded': 0}`
(`partial` is spelled `partialCnt` here). -/
structure StatRec where
  total : Nat
  completed : Nat
  skipped : Nat
  partialCnt : Nat
  exceeded : Nat
deriving DecidableEq, Repr

def initStats : StatRec := ⟨0, 0, 0, 0, 0⟩

/-- `d[key] += 1` on the inner per-habit dict: a key other than the five
initialized ones raises `KeyError` (`none`). -/
def bumpKey (g : StatRec) : String → Option StatRec
  | "total" => some { g with total := g.total + 1 }
  | "completed" => some { g with completed := g.completed + 1 }
  | "skipped" => some { g with skipped := g.skipped + 1 }
  | "partial" => some { g with partialCnt := g.partialCnt + 1 }
  | "exceeded" => some { g with exceeded := g.exceeded + 1 }
  | _ => none

/-- `habit_stats[habit_name][key] += 1` where `habit_stats` is a
`defaultdict`: the per-habit record is created at first access; Python dict
insertion order is preserved (modelled as an association list). -/
def dictUpdate :
    List (String × StatRec) → String → String → Option (List (String × StatRec))
  | [], name, key => (bumpKey initStats key).map (fun g => [(name, g)])
  | (n, g) :: rest, name, key =>
    if n = name then (bumpKey g key).map (fun g2 => (n, g2) :: rest)
    else (dictUpdate rest name key).map (fun r => (n, g) :: r)

/-- The aggregation loop of `stats` (cli_tool.py lines 67-71): for each entry,
increment the habit's `total` bucket and then the bucket named by the
lowercased status. -/
def statsLoop :
    List (String × StatRec) → List HabitEntry → Option (List (String × StatRec))
  | st, [] => some st
  | st, e :: rest =>
    match dictUpdate st e.habit "total" with
    | none => none
    | some st1 =>
      match dictUpdate st1 e.habit (pyLower e.status) with
      | none => none
      | some st2 => statsLoop st2 rest

/-- The whole per-habit statistics computation on an entry snapshot. -/
def habitStatsOf (es : List HabitEntry) : Option (List (String × StatRec)) :=
  statsLoop [] es

/-- Completion rate (cli_tool.py line 78):
`(stats['completed'] + stats['exceeded']) / stats['total'] * 100`. -/
def completionRate (g : StatRec) : ℚ :=
  ((g.completed : ℚ) + (g.exceeded : ℚ)) / (g.total : ℚ) * 100

theorem bumpKey_none (g : StatRec) (key : String)
    (h : key ∉ (["total", "completed", "skipped", "partial", "exceeded"] :
      List String)) :
    bumpKey g key = none := by
  unfold bumpKey
  split <;> simp_all

theorem dictUpdate_none (st : List (String × StatRec)) (name key : String)
    (h : ∀ g, bumpKey g key = none) :
    dictUpdate st name key = none := by
  induction st with
  | nil => simp [dictUpdate, h]
  | cons p rest ih =>
    obtain ⟨n, g⟩ := p
    by_cases hn : n = name
    · simp [dictUpdate, hn, h]
    · simp [dictUpdate, hn, ih]

end Habitify

open Habitify in
/-- C2 (counterexample): a snapshot with one entry whose status is `Missed`
(not a recognized bucket) does not make the statistics computation complete;
it aborts with a key-lookup error. -/
theorem C2_counterexample :
    habitStatsOf [⟨0, "Reading", "Missed"⟩] = none := by rfl

open Habitify in
/-- C2 (amended): an entry whose lowercased status is none of the dict keys
`total`, `completed`, `skipped`, `partial`, `exceeded` makes the per-habit
statistics computation abort with a key-lookup error instead of completing. -/
theorem C2_unrecognized_status_fails (es : List HabitEntry) (e : HabitEntry)
    (he : e ∈ es)
    (hbad : (pyLower e.status) ∉
      (["total", "completed", "skipped", "partial", "exceeded"] : List String)) :
    habitStatsOf es = none := by
  suffices h : ∀ (l : List HabitEntry), e ∈ l → ∀ st, statsLoop st l = none by
    exact h es he []
  intro l
  induction l with
  | nil => intro he'; cases he'
  | cons a rest ih =>
    intro he' st
    have hfail : ∀ st0, dictUpdate st0 e.habit (pyLower e.status) = none :=
      fun st0 => dictUpdate_none st0 e.habit (pyLower e.status)
        (fun g => bumpKey_none g (pyLower e.status) hbad)
    rcases List.mem_cons.mp he' with h1 | h2
    · subst h1
      cases hu : dictUpdate st e.habit "total" with
      | none => simp [statsLoop, hu]
      | some st1 => simp [statsLoop, hu, hfail st1]
    · cases hu : dictUpdate st a.habit "total" with
      | none => simp [statsLoop, hu]
      | some st1 =>
        cases hv : dictUpdate st1 a.habit (pyLower a.status) with
        | none => simp [statsLoop, hu, hv]
        | some st2 => simp [statsLoop, hu, hv, ih h2 st2]

/-- Witness for the amended C2 at a concrete snapshot: a recognized entry
followed by an entry with status `Given up` makes the computation fail. -/
theorem C2_unrecognized_status_fails_witness :
    Habitify.habitStatsOf
      [⟨0, "Reading", "Completed"⟩, ⟨1, "Reading", "Given up"⟩] = none :=
  C2_unrecognized_status_fails
    [⟨0, "Reading", "Completed"⟩, ⟨1, "Reading", "Given up"⟩]
    ⟨1, "Reading", "Given up"⟩ (by decide) (by decide)


namespace Habitify

/-- Dict access `habit_stats[hb]` on the association-list model of the
(insertion-ordered) outer dict. -/
def lookupSt : List (String × StatRec) → String → Option StatRec
  | [], _ => none
  | (n, g) :: rest, hb => if hb = n then some g else lookupSt rest hb

/-- The per-habit record currently held for `hb`, with the defaultdict's
initial record when `hb` has not been seen yet. -/
def statsFor (st : List (String × StatRec)) (hb : String) : StatRec :=
  (lookupSt st hb).getD initStats

theorem dictUpdate_lookup (st : List (String × StatRec)) (name key : String)
    (st' : List (String × StatRec)) (h : dictUpdate st name key = some st')
    (hb : String) :
    lookupSt st' hb =
      if hb = name then bumpKey (statsFor st name) key
      else lookupSt st hb := by
  induction st generalizing st' with
  | nil =>
    cases hbk : bumpKey initStats key with
    | none => simp [dictUpdate, hbk] at h
    | some g =>
      simp only [dictUpdate, hbk, Option.map_some'] at h
      cases h
      by_cases hbn : hb = name
      · subst hbn; simp [lookupSt, statsFor, hbk]
      · simp [lookupSt, hbn]
  | cons p rest ih =>
    obtain ⟨n, g⟩ := p
    by_cases hn : n = name
    · subst hn
      cases hbk : bumpKey g key with
      | none => simp [dictUpdate, hbk] at h
      | some g2 =>
        simp only [dictUpdate, if_pos rfl, hbk, Option.map_some'] at h
        cases h
        by_cases hbn : hb = n
        · subst hbn; simp [lookupSt, statsFor, hbk]
        · simp [lookupSt, hbn]
    · cases hdu : dictUpdate rest name key with
      | none => simp [dictUpdate, if_neg hn, hdu] at h
      | some r =>
        simp only [dictUpdate, if_neg hn, hdu, Option.map_some'] at h
        cases h
        have hrec := ih r hdu
        by_cases hbn : hb = n
        · subst hbn
          have hne : hb ≠ name := hn
          simp [lookupSt, hne]
        · by_cases hbname : hb = name
          · subst hbname
            simp only [if_pos rfl] at hrec ⊢
            simp only [statsFor, lookupSt, if_neg hbn] at hrec ⊢
            exact hrec
          · simp only [if_neg hbname] at hrec ⊢
            simp [lookupSt, hbn, hrec]

theorem dictUpdate_some (st : List (String × StatRec)) (name key : String)
    (st' : List (String × StatRec)) (h : dictUpdate st name key = some st') :
    ∃ g', bumpKey (statsFor st name) key = some g' := by
  induction st generalizing st' with
  | nil =>
    cases hbk : bumpKey initStats key with
    | none => simp [dictUpdate, hbk] at h
    | some g => exact ⟨g, by simpa [statsFor, lookupSt] using hbk⟩
  | cons p rest ih =>
    obtain ⟨n, g⟩ := p
    by_cases hn : n = name
    · subst hn
      cases hbk : bumpKey g key with
      | none => simp [dictUpdate, hbk] at h
      | some g2 => exact ⟨g2, by simpa [statsFor, lookupSt] using hbk⟩
    · cases hdu : dictUpdate rest name key with
      | none => simp [dictUpdate, if_neg hn, hdu] at h
      | some r =>
        obtain ⟨g', hg'⟩ := ih r hdu
        refine ⟨g', ?_⟩
        rwa [show statsFor ((n, g) :: rest) name = statsFor rest name by
          simp [statsFor, lookupSt, Ne.symm hn]]

theorem bumpKey_fields (g g' : StatRec) (key : String)
    (h : bumpKey g key = some g') (hk : key ≠ "total") :
    g'.total = g.total ∧
    g'.completed = g.completed + (if key = "completed" then 1 else 0) ∧
    g'.exceeded = g.exceeded + (if key = "exceeded" then 1 else 0) := by
  unfold bumpKey at h
  split at h <;> simp_all <;> (cases h; exact ⟨rfl, rfl, rfl⟩)

theorem bumpKey_total (g : StatRec) :
    bumpKey g "total" = some { g with total := g.total + 1 } := rfl

end Habitify

namespace Habitify

/-- Counting invariant of the `stats` aggregation loop: for a habit name `hb`
whose entries never carry the pathological status `total`, the `total`,
`completed` and `exceeded` buckets of `hb`'s record grow by exactly the
number of `hb`-entries (resp. with lowercased status `completed`,
`exceeded`) in the processed list. -/
theorem statsLoop_counts (hb : String) (es : List HabitEntry) :
    ∀ (st st' : List (String × StatRec)),
    statsLoop st es = some st' →
    (∀ e ∈ es, e.habit = hb → pyLower e.status ≠ "total") →
    (statsFor st' hb).total
        = (statsFor st hb).total + es.countP (fun e => e.habit == hb) ∧
    (statsFor st' hb).completed
        = (statsFor st hb).completed
          + es.countP (fun e => e.habit == hb && pyLower e.status == "completed") ∧
    (statsFor st' hb).exceeded
        = (statsFor st hb).exceeded
          + es.countP (fun e => e.habit == hb && pyLower e.status == "exceeded") := by
  induction es with
  | nil =>
    intro st st' h _
    simp only [statsLoop, Option.some.injEq] at h
    subst h
    simp
  | cons e rest ih =>
    intro st st' h hgood
    cases hu : dictUpdate st e.habit "total" with
    | none => simp [statsLoop, hu] at h
    | some st1 =>
      cases hv : dictUpdate st1 e.habit (pyLower e.status) with
      | none => simp [statsLoop, hu, hv] at h
      | some st2 =>
        simp only [statsLoop, hu, hv] at h
        obtain ⟨iht, ihc, ihe⟩ :=
          ih st2 st' h (fun x hx hhb => hgood x (List.mem_cons_of_mem _ hx) hhb)
        have l1 := dictUpdate_lookup st e.habit "total" st1 hu hb
        have l2 := dictUpdate_lookup st1 e.habit (pyLower e.status) st2 hv hb
        by_cases hh : e.habit = hb
        · -- the entry belongs to hb's group
          have hk : pyLower e.status ≠ "total" :=
            hgood e (List.mem_cons_self _ _) hh
          obtain ⟨g2, hg2⟩ :=
            dictUpdate_some st1 e.habit (pyLower e.status) st2 hv
          rw [if_pos hh.symm] at l1 l2
          rw [hg2] at l2
          have hst1 : statsFor st1 hb
              = { statsFor st hb with total := (statsFor st hb).total + 1 } := by
            have : lookupSt st1 hb = some { statsFor st e.habit with
                total := (statsFor st e.habit).total + 1 } := by
              rw [l1, bumpKey_total]
            simp [statsFor, this, hh]
          have hst2 : statsFor st2 hb = g2 := by
            simp [statsFor, l2]
          have hg2' : bumpKey (statsFor st1 hb) (pyLower e.status) = some g2 := by
            rw [show statsFor st1 hb = statsFor st1 e.habit by rw [hh]]
            exact hg2
          obtain ⟨f1, f2, f3⟩ :=
            bumpKey_fields (statsFor st1 hb) g2 (pyLower e.status) hg2' hk
          rw [List.countP_cons, List.countP_cons, List.countP_cons]
          refine ⟨?_, ?_, ?_⟩
          · rw [iht, hst2, f1, hst1]
            simp [hh]
            omega
          · rw [ihc, hst2, f2, hst1]
            simp only [hh]
            by_cases hc : pyLower e.status = "completed" <;>
              simp [hc] <;> omega
          · rw [ihe, hst2, f3, hst1]
            simp only [hh]
            by_cases hc : pyLower e.status = "exceeded" <;>
              simp [hc] <;> omega
        · -- the entry belongs to a different group: hb's record is untouched
          have hne : hb ≠ e.habit := fun hx => hh hx.symm
          rw [if_neg hne] at l1 l2
          have hst2 : statsFor st2 hb = statsFor st hb := by
            simp [statsFor, l2, l1]
          have hpe : (e.habit == hb) = false := by
            simp [hh]
          rw [List.countP_cons, List.countP_cons, List.countP_cons]
          simp only [hpe, Bool.false_and, if_neg (by simp : ¬(false = true))]
          rw [iht, ihc, ihe, hst2]
          omega

end Habitify

open Habitify in
/-- C6: for a per-habit group produced by the statistics computation (for a
habit none of whose entries carries the pathological status `total`), the
completion rate equals (number of `completed` entries + number of `exceeded`
entries) divided by the group's total entry count, times 100; the bucket
counts themselves equal the corresponding entry counts. -/
theorem C6_completion_rate (es : List HabitEntry) (hb : String)
    (st : List (String × StatRec)) (g : StatRec)
    (h1 : habitStatsOf es = some st)
    (h2 : lookupSt st hb = some g)
    (h3 : ∀ e ∈ es, e.habit = hb → pyLower e.status ≠ "total") :
    g.total = es.countP (fun e => e.habit == hb) ∧
    g.completed
      = es.countP (fun e => e.habit == hb && pyLower e.status == "completed") ∧
    g.exceeded
      = es.countP (fun e => e.habit == hb && pyLower e.status == "exceeded") ∧
    completionRate g =
      ((es.countP (fun e => e.habit == hb && pyLower e.status == "completed") : ℚ)
        + (es.countP (fun e => e.habit == hb && pyLower e.status == "exceeded") : ℚ))
      / (es.countP (fun e => e.habit == hb) : ℚ) * 100 := by
  obtain ⟨ht, hc, he⟩ := statsLoop_counts hb es [] st h1 h3
  rw [show statsFor st hb = g by simp [statsFor, h2]] at ht hc he
  rw [show statsFor [] hb = initStats from rfl] at ht hc he
  simp only [initStats, Nat.zero_add] at ht hc he
  refine ⟨ht, hc, he, ?_⟩
  rw [completionRate, ht, hc, he]

namespace Habitify

/-- The spec's completion-rate example snapshot: 10 entries for "Reading",
6 `Completed`, 2 `Exceeded`, 2 `Skipped`. -/
def readingExample : List HabitEntry :=
  [⟨1, "Reading", "Completed"⟩, ⟨2, "Reading", "Completed"⟩,
   ⟨3, "Reading", "Completed"⟩, ⟨4, "Reading", "Completed"⟩,
   ⟨5, "Reading", "Completed"⟩, ⟨6, "Reading", "Completed"⟩,
   ⟨7, "Reading", "Exceeded"⟩, ⟨8, "Reading", "Exceeded"⟩,
   ⟨9, "Reading", "Skipped"⟩, ⟨10, "Reading", "Skipped"⟩]

end Habitify

open Habitify in
/-- Witness for C6: the spec's example group (10 entries for "Reading":
6 `Completed`, 2 `Exceeded`, 2 `Skipped`) has completion rate 80%. -/
theorem C6_completion_rate_witness :
    completionRate ⟨10, 6, 2, 0, 2⟩ = 80 := by
  have h := C6_completion_rate readingExample
    "Reading" [("Reading", ⟨10, 6, 2, 0, 2⟩)] ⟨10, 6, 2, 0, 2⟩
    (by rfl) (by rfl) (by decide)
  have e1 : readingExample.countP
      (fun e => e.habit == "Reading" && pyLower e.status == "completed") = 6 := by
    rfl
  have e2 : readingExample.countP
      (fun e => e.habit == "Reading" && pyLower e.status == "exceeded") = 2 := by
    rfl
  have e3 : readingExample.countP (fun e => e.habit == "Reading") = 10 := by rfl
  rw [h.2.2.2, e1, e2, e3]
  norm_num

namespace Habitify

/-- `entry['status'].lower() in ['completed', 'exceeded']`. -/
def isSuccess (status : String) : Bool :=
  pyLower status == "completed" || pyLower status == "exceeded"

/-- One step of a stable date-descending insertion: the new entry (earlier in
append order) is placed before the first element whose date is ≤ its own. -/
def insertDesc (e : HabitEntry) : List HabitEntry → List HabitEntry
  | [] => [e]
  | x :: xs => if x.date ≤ e.date then e :: x :: xs else x :: insertDesc e xs

/-- `habit_entries.sort(key=date, reverse=True)`: Python `list.sort` is
stable, so ties keep append order; modelled as a stable descending insertion
sort. -/
def sortByDateDesc : List HabitEntry → List HabitEntry
  | [] => []
  | e :: rest => insertDesc e (sortByDateDesc rest)

/-- The streak walk of `streak` (cli_tool.py lines 103-126), over the sorted
entries with accumulator `current_streak`. -/
def streakLoop (today : Int) : List HabitEntry → Nat → Nat
  | [], s => s
  | e :: rest, s =>
    if today < e.date then streakLoop today rest s
    else if isSuccess e.status then
      if s = 0 then
        if e.date = today ∨ e.date = today - 1 then streakLoop today rest 1
        else 0
      else
        if e.date = today - (s : Int) then streakLoop today rest (s + 1)
        else s
    else s

/-- The `streak` command's computation: filter the snapshot to the habit
(case-insensitive match), sort by date descending (stable), then walk. -/
def streak (habit_name : String) (today : Int) (habits : List HabitEntry) :
    Nat :=
  streakLoop today
    (sortByDateDesc
      (habits.filter (fun h => pyLower h.habit == pyLower habit_name))) 0

/-- The walk exactly as the claim words it: the first counted (non-future)
entry must be dated today or yesterday and succeed to start the streak at 1,
and every subsequent counted entry must be dated exactly one day earlier than
the previous counted day (tracked in `prev`) and succeed. -/
def claimStreakLoop (today : Int) :
    List HabitEntry → Option Int → Nat → Nat
  | [], _, s => s
  | e :: rest, prev, s =>
    if today < e.date then claimStreakLoop today rest prev s
    else
      match prev with
      | none =>
        if (e.date = today ∨ e.date = today - 1) ∧ isSuccess e.status then
          claimStreakLoop today rest (some e.date) 1
        else 0
      | some p =>
        if e.date = p - 1 ∧ isSuccess e.status then
          claimStreakLoop today rest (some e.date) (s + 1)
        else s

/-- The streak computation as the claim describes it. -/
def claimStreak (habit_name : String) (today : Int)
    (habits : List HabitEntry) : Nat :=
  claimStreakLoop today
    (sortByDateDesc
      (habits.filter (fun h => pyLower h.habit == pyLower habit_name)))
    none 0

/-- The walk of the amended claim: a subsequent counted entry extends the
streak exactly when it is dated `today - s` where `s` is the streak counted
so far (the expected date is tracked in an accumulator). -/
def amendedStreakLoop (today : Int) :
    List HabitEntry → Int → Nat → Nat
  | [], _, s => s
  | e :: rest, expected, s =>
    if today < e.date then amendedStreakLoop today rest expected s
    else if s = 0 then
      if (e.date = today ∨ e.date = today - 1) ∧ isSuccess e.status then
        amendedStreakLoop today rest (today - 1) 1
      else 0
    else
      if e.date = expected ∧ isSuccess e.status then
        amendedStreakLoop today rest (today - ((s : Int) + 1)) (s + 1)
      else s

/-- The streak computation as the amended claim describes it. -/
def amendedStreak (habit_name : String) (today : Int)
    (habits : List HabitEntry) : Nat :=
  amendedStreakLoop today
    (sortByDateDesc
      (habits.filter (fun h => pyLower h.habit == pyLower habit_name)))
    0 0

/-- Two `Completed` entries dated yesterday and the day before: the claim's
walk counts both (each dated one day before the previous counted day), but
the code's expected date after a streak started yesterday is `today - 1`
again, so the second entry breaks the walk. -/
def c1Input : List HabitEntry :=
  [⟨99, "Exercise", "Completed"⟩, ⟨98, "Exercise", "Completed"⟩]

end Habitify

namespace Habitify

theorem streakLoop_eq_amendedLoop (today : Int) (l : List HabitEntry) :
    ∀ (s : Nat) (exp : Int), (s = 0 ∨ exp = today - (s : Int)) →
    streakLoop today l s = amendedStreakLoop today l exp s := by
  induction l with
  | nil => intro s exp _; rfl
  | cons e rest ih =>
    intro s exp hinv
    by_cases hf : today < e.date
    · simp only [streakLoop, amendedStreakLoop, if_pos hf]
      exact ih s exp hinv
    · by_cases hsuc : isSuccess e.status
      · by_cases hs : s = 0
        · subst hs
          by_cases hst : e.date = today ∨ e.date = today - 1
          · have h1 : streakLoop today (e :: rest) 0 = streakLoop today rest 1 := by
              simp [streakLoop, hf, hsuc, hst]
            have h2 : amendedStreakLoop today (e :: rest) exp 0
                = amendedStreakLoop today rest (today - 1) 1 := by
              simp [amendedStreakLoop, hf, hsuc, hst]
            rw [h1, h2]
            exact ih 1 (today - 1) (Or.inr (by push_cast; ring))
          · have h1 : streakLoop today (e :: rest) 0 = 0 := by
              simp [streakLoop, hf, hsuc, hst]
            have h2 : amendedStreakLoop today (e :: rest) exp 0 = 0 := by
              simp [amendedStreakLoop, hf, hsuc, hst]
            rw [h1, h2]
        · have hexp : exp = today - (s : Int) := hinv.resolve_left hs
          subst hexp
          by_cases hd : e.date = today - (s : Int)
          · have h1 : streakLoop today (e :: rest) s
                = streakLoop today rest (s + 1) := by
              simp [streakLoop, hf, hsuc, hs, hd]
            have h2 : amendedStreakLoop today (e :: rest) (today - (s : Int)) s
                = amendedStreakLoop today rest (today - ((s : Int) + 1)) (s + 1) := by
              simp [amendedStreakLoop, hf, hsuc, hs, hd]
            rw [h1, h2]
            exact ih (s + 1) (today - ((s : Int) + 1))
              (Or.inr (by push_cast; ring))
          · have h1 : streakLoop today (e :: rest) s = s := by
              simp [streakLoop, hf, hsuc, hs, hd]
            have h2 : amendedStreakLoop today (e :: rest) (today - (s : Int)) s
                = s := by
              simp [amendedStreakLoop, hf, hsuc, hs, hd]
            rw [h1, h2]
      · by_cases hs : s = 0
        · subst hs
          have h1 : streakLoop today (e :: rest) 0 = 0 := by
            simp [streakLoop, hf, hsuc]
          have h2 : amendedStreakLoop today (e :: rest) exp 0 = 0 := by
            simp [amendedStreakLoop, hf, hsuc]
          rw [h1, h2]
        · have h1 : streakLoop today (e :: rest) s = s := by
            simp [streakLoop, hf, hsuc, hs]
          have h2 : amendedStreakLoop today (e :: rest) exp s = s := by
            simp [amendedStreakLoop, hf, hsuc, hs]
          rw [h1, h2]

end Habitify

open Habitify in
/-- C1 (counterexample): on two `Completed` entries dated yesterday and the
day before (today = day 100), the code's streak is 1 but the claim's walk
(each subsequent counted entry dated exactly one day earlier than the
previous counted day) counts 2, so the code does not follow the claim's
walk. -/
theorem C1_counterexample :
    Habitify.streak "Exercise" 100 Habitify.c1Input = 1 ∧
    Habitify.claimStreak "Exercise" 100 Habitify.c1Input = 2 ∧
    Habitify.streak "Exercise" 100 Habitify.c1Input ≠
      Habitify.claimStreak "Exercise" 100 Habitify.c1Input := by
  refine ⟨by decide, by decide, by decide⟩

open Habitify in
/-- C1 (amended): the streak computation filters the habit's entries
case-insensitively, sorts them by date descending (stable), skips entries
dated strictly after today, starts the streak at 1 exactly when the first
non-future entry is dated today or yesterday with a success status, and
extends it by 1 exactly when the next counted entry is dated `today - s`
(where `s` is the streak counted so far) with a success status, the first
entry breaking either condition terminating the walk. -/
theorem C1_streak_walk (habit_name : String) (today : Int)
    (habits : List Habitify.HabitEntry) :
    Habitify.streak habit_name today habits =
      Habitify.amendedStreak habit_name today habits :=
  Habitify.streakLoop_eq_amendedLoop today _ 0 0 (Or.inl rfl)

open Habitify in
/-- C5: the spec's two streak examples, for every value of today `T`:
(1) entries dated `T`, `T-1`, `T-2` all `Completed` and `T-3` `Skipped`
give streak 3; (2) entries dated `T` and `T-2` both `Completed`, with no
entry at `T-1`, give streak 1. -/
theorem C5_streak_examples (T : ℤ) :
    Habitify.streak "Exercise" T
      [⟨T - 3, "Exercise", "Skipped"⟩, ⟨T - 2, "Exercise", "Completed"⟩,
       ⟨T - 1, "Exercise", "Completed"⟩, ⟨T, "Exercise", "Completed"⟩] = 3 ∧
    Habitify.streak "Exercise" T
      [⟨T - 2, "Exercise", "Completed"⟩, ⟨T, "Exercise", "Completed"⟩] = 1 := by
  have hp : (pyLower "Exercise" == pyLower "Exercise") = true := rfl
  have hc : isSuccess "Completed" = true := rfl
  have hk : isSuccess "Skipped" = false := rfl
  have h1 : ¬(T ≤ T - 1) := by omega
  have h2 : ¬(T ≤ T - 2) := by omega
  have h3 : ¬(T ≤ T - 3) := by omega
  have h4 : ¬(T - 1 ≤ T - 2) := by omega
  have h5 : ¬(T - 1 ≤ T - 3) := by omega
  have h6 : ¬(T - 2 ≤ T - 3) := by omega
  have h7 : ¬(T < T) := by omega
  have h8 : ¬(T < T - 1) := by omega
  have h9 : ¬(T < T - 2) := by omega
  have h10 : ¬(T < T - 3) := by omega
  have h11 : ¬(T - 2 = T - 1) := by omega
  constructor
  · simp [streak, List.filter, hp, sortByDateDesc, insertDesc, streakLoop,
      hc, hk, h1, h2, h3, h4, h5, h6, h7, h8, h9, h10, h11]
  · simp [streak, List.filter, hp, sortByDateDesc, insertDesc, streakLoop,
      hc, hk, h1, h2, h3, h4, h5, h6, h7, h8, h9, h10, h11]

namespace Habitify

/-- `completed_days` of `progress` (cli_tool.py line 418): the number of
entries (not distinct days) with a success status. -/
def completed_days (entries : List HabitEntry) : Nat :=
  (entries.filter (fun e => isSuccess e.status)).length

/-- `progress_percentage = (completed_days / total_days) * 100`
(line 419), in exact rational arithmetic. -/
def progress_percentage (completed total_days : Nat) : ℚ :=
  ((completed : ℚ) / (total_days : ℚ)) * 100

/-- `filled_length = int(bar_length * progress_percentage / 100)`
(line 423) with `bar_length = 30`; the value is nonnegative, so Python's
truncation is the floor. -/
def filled_length (completed total_days : Nat) : ℤ :=
  ⌊(30 : ℚ) * progress_percentage completed total_days / 100⌋

/-- `bar = '█' * filled_length + '░' * (bar_length - filled_length)`
(line 424): a negative Python repetition count yields the empty string,
exactly like truncated `Nat` subtraction. -/
def progressBarChars (completed total_days : Nat) : List Char :=
  List.replicate (filled_length completed total_days).toNat '█' ++
    List.replicate (30 - (filled_length completed total_days).toNat) '░'

/-- Three same-day success entries inside a 2-day window: duplicate-day
logging makes the success count exceed the window length. -/
def dupDayExample : List HabitEntry :=
  [⟨5, "Gym", "Completed"⟩, ⟨5, "Gym", "Completed"⟩, ⟨5, "Gym", "Completed"⟩]

end Habitify

namespace Habitify

/-- The filled width in exact arithmetic is the floor of `30 * s / N`
(with `Nat` division; for `N = 0` both sides are 0). -/
theorem filled_length_eq (s N : ℕ) :
    filled_length s N = ((30 * s) / N : ℕ) := by
  unfold filled_length progress_percentage
  have heq : (30 : ℚ) * ((s : ℚ) / (N : ℚ) * 100) / 100
      = ((30 * s : ℕ) : ℚ) / ((N : ℕ) : ℚ) := by
    push_cast
    ring
  rw [heq, Rat.floor_natCast_div_natCast]
  norm_cast

end Habitify

open Habitify in
/-- C7: for every window `N > 0` and success count `s`, the rendered bar has
`floor(30 * s / N)` filled glyphs, and the fill is not clamped at the bar
width: with three duplicate same-day success entries in a 2-day window the
success count is 3 > 2 and the bar carries 45 > 30 filled glyphs. -/
theorem C7_progress_bar :
    (∀ (N s : ℕ), 0 < N →
      filled_length s N = ((30 * s) / N : ℕ) ∧
      (progressBarChars s N).count '█' = (30 * s) / N) ∧
    (completed_days dupDayExample = 3 ∧
     2 < completed_days dupDayExample ∧
     filled_length (completed_days dupDayExample) 2 = 45 ∧
     30 < filled_length (completed_days dupDayExample) 2 ∧
     (progressBarChars (completed_days dupDayExample) 2).count '█' = 45) := by
  constructor
  · intro N s hN
    refine ⟨filled_length_eq s N, ?_⟩
    unfold progressBarChars
    rw [List.count_append, List.count_replicate_self, List.count_replicate]
    rw [show (('░' : Char) == '█') = false from rfl]
    rw [if_neg (by simp), Nat.add_zero, filled_length_eq, Int.toNat_natCast]
  · have hc : completed_days dupDayExample = 3 := by decide
    refine ⟨hc, by decide, ?_, ?_, ?_⟩
    · rw [hc, filled_length_eq]
      decide
    · rw [hc, filled_length_eq]
      decide
    · rw [hc]
      unfold progressBarChars
      rw [filled_length_eq]
      decide

open Habitify in
/-- Witness for C7 at `N = 3`, `s = 1`: the bar has `floor(30/3) = 10`
filled glyphs. -/
theorem C7_progress_bar_witness :
    Habitify.filled_length 1 3 = ((30 * 1) / 3 : ℕ) ∧
    (Habitify.progressBarChars 1 3).count '█' = (30 * 1) / 3 :=
  C7_progress_bar.1 3 1 (by decide)
